import Mathlib

/-!
Verification of the PureTracker multi-object tracker
(`boxmot/trackers/puretracker`): a shallow embedding of the geometry
utilities, the embedding aggregator, the structure-of-arrays track
storage and the per-frame association steps, with theorems settling the
specification claims about them.

Conventions used throughout:
* rectangle geometry, costs and confidences are modelled over `ℚ` (the
  source computes with IEEE doubles; every operation involved is a field
  operation, so the rational model is exact on rational inputs);
* appearance embeddings are modelled over `ℝ`, because the source
  L2-normalizes rows, which takes a square root;
* a numpy float division whose denominator is zero yields NaN or inf;
  such an entry is modelled as `none` of an `Option` (any comparison
  against NaN is false, matching `Option.elim` with default `false`);
* numpy integer arrays of track ids are modelled as `List ℕ`, frame
  counters as `ℤ`.
-/

namespace PureTracker

/-! ### Geometry (`boxmot/trackers/puretracker/utils.py`) -/

/-- A rectangle in `xywh` (center-x, center-y, width, height) encoding,
as used by `iou_batch_xywh` and the Kalman mean prefix. -/
structure Box where
  x : ℚ
  y : ℚ
  w : ℚ
  h : ℚ
  deriving DecidableEq, Repr

/-- Left edge: `bboxes[..., 0] - bboxes[..., 2] / 2`. -/
def Box.x1 (b : Box) : ℚ := b.x - b.w / 2

/-- Top edge: `bboxes[..., 1] - bboxes[..., 3] / 2`. -/
def Box.y1 (b : Box) : ℚ := b.y - b.h / 2

/-- Right edge: `bboxes[..., 0] + bboxes[..., 2] / 2`. -/
def Box.x2 (b : Box) : ℚ := b.x + b.w / 2

/-- Bottom edge: `bboxes[..., 1] + bboxes[..., 3] / 2`. -/
def Box.y2 (b : Box) : ℚ := b.y + b.h / 2

/-- `inter_w = max(0, xx2 - xx1)` of `iou_batch_xywh`. -/
def interW (b1 b2 : Box) : ℚ := max 0 (min b1.x2 b2.x2 - max b1.x1 b2.x1)

/-- `inter_h = max(0, yy2 - yy1)` of `iou_batch_xywh`. -/
def interH (b1 b2 : Box) : ℚ := max 0 (min b1.y2 b2.y2 - max b1.y1 b2.y1)

/-- `inter_area = inter_w * inter_h`. -/
def interArea (b1 b2 : Box) : ℚ := interW b1 b2 * interH b1 b2

/-- `area = bboxes[..., 2] * bboxes[..., 3]`. -/
def Box.area (b : Box) : ℚ := b.w * b.h

/-- `union_area = bboxes1_area + bboxes2_area - inter_area`. -/
def unionArea (b1 b2 : Box) : ℚ := b1.area + b2.area - interArea b1 b2

/-- One entry of `iou_batch_xywh`: the source computes
`iou = inter_area / union_area` with no guard on the denominator; a zero
denominator produces a non-finite float (NaN when the numerator is also
zero), modelled here as `none`. -/
def iouEntry (b1 b2 : Box) : Option ℚ :=
  if unionArea b1 b2 = 0 then none
  else some (interArea b1 b2 / unionArea b1 b2)

/-- `iou_batch_xywh(bboxes1, bboxes2)`: the `N×M` matrix of pairwise
IoUs (rows indexed by `bboxes1`, columns by `bboxes2`). -/
def iou_batch_xywh (bs1 bs2 : List Box) : List (List (Option ℚ)) :=
  bs1.map fun b1 => bs2.map fun b2 => iouEntry b1 b2

/-- One entry of the visibility-ratio matrix of `iou_vr_batch_xywh`:
`vr = (bboxes2_area - inter_area) / bboxes2_area`, again with an
unguarded division. -/
def vrEntry (b1 b2 : Box) : Option ℚ :=
  if b2.area = 0 then none
  else some ((b2.area - interArea b1 b2) / b2.area)

lemma interW_eq_zero_of_w1_eq_zero (b1 b2 : Box) (hw : b1.w = 0) :
    interW b1 b2 = 0 := by
  have h1 : min b1.x2 b2.x2 - max b1.x1 b2.x1 ≤ 0 := by
    have hmin : min b1.x2 b2.x2 ≤ b1.x2 := min_le_left _ _
    have hmax : b1.x1 ≤ max b1.x1 b2.x1 := le_max_left _ _
    have : b1.x2 = b1.x1 := by simp [Box.x1, Box.x2, hw]
    linarith
  exact max_eq_left h1

lemma interH_eq_zero_of_h1_eq_zero (b1 b2 : Box) (hh : b1.h = 0) :
    interH b1 b2 = 0 := by
  have h1 : min b1.y2 b2.y2 - max b1.y1 b2.y1 ≤ 0 := by
    have hmin : min b1.y2 b2.y2 ≤ b1.y2 := min_le_left _ _
    have hmax : b1.y1 ≤ max b1.y1 b2.y1 := le_max_left _ _
    have : b1.y2 = b1.y1 := by simp [Box.y1, Box.y2, hh]
    linarith
  exact max_eq_left h1

lemma interW_eq_zero_of_w2_eq_zero (b1 b2 : Box) (hw : b2.w = 0) :
    interW b1 b2 = 0 := by
  have h1 : min b1.x2 b2.x2 - max b1.x1 b2.x1 ≤ 0 := by
    have hmin : min b1.x2 b2.x2 ≤ b2.x2 := min_le_right _ _
    have hmax : b2.x1 ≤ max b1.x1 b2.x1 := le_max_right _ _
    have : b2.x2 = b2.x1 := by simp [Box.x1, Box.x2, hw]
    linarith
  exact max_eq_left h1

lemma interH_eq_zero_of_h2_eq_zero (b1 b2 : Box) (hh : b2.h = 0) :
    interH b1 b2 = 0 := by
  have h1 : min b1.y2 b2.y2 - max b1.y1 b2.y1 ≤ 0 := by
    have hmin : min b1.y2 b2.y2 ≤ b2.y2 := min_le_right _ _
    have hmax : b2.y1 ≤ max b1.y1 b2.y1 := le_max_right _ _
    have : b2.y2 = b2.y1 := by simp [Box.y1, Box.y2, hh]
    linarith
  exact max_eq_left h1

/-- A degenerate box (zero area) intersects nothing. -/
lemma interArea_eq_zero_of_area_eq_zero (b1 b2 : Box)
    (h : b1.area = 0 ∨ b2.area = 0) : interArea b1 b2 = 0 := by
  rcases h with h | h
  · rcases mul_eq_zero.1 h with hw | hh
    · rw [interArea, interW_eq_zero_of_w1_eq_zero b1 b2 hw, zero_mul]
    · rw [interArea, interH_eq_zero_of_h1_eq_zero b1 b2 hh, mul_zero]
  · rcases mul_eq_zero.1 h with hw | hh
    · rw [interArea, interW_eq_zero_of_w2_eq_zero b1 b2 hw, zero_mul]
    · rw [interArea, interH_eq_zero_of_h2_eq_zero b1 b2 hh, mul_zero]

/-- C8 (amended): in `iou_batch_xywh`, an entry whose two boxes have
exactly one zero area is defined and equals `0`; when both areas are
zero the unguarded division is `0 / 0`, which is NaN (modelled `none`),
not `0`. -/
theorem iouEntry_zero_area (b1 b2 : Box) (h : b1.area = 0 ∨ b2.area = 0) :
    iouEntry b1 b2 = if b1.area = 0 ∧ b2.area = 0 then none else some 0 := by
  have hinter : interArea b1 b2 = 0 := interArea_eq_zero_of_area_eq_zero b1 b2 h
  have hunion : unionArea b1 b2 = b1.area + b2.area := by
    simp [unionArea, hinter]
  by_cases hboth : b1.area = 0 ∧ b2.area = 0
  · have : unionArea b1 b2 = 0 := by
      rw [hunion, hboth.1, hboth.2, add_zero]
    simp [iouEntry, this, hboth]
  · have hne : unionArea b1 b2 ≠ 0 := by
      rcases h with h1 | h2
      · have h2 : b2.area ≠ 0 := fun hc => hboth ⟨h1, hc⟩
        rw [hunion, h1, zero_add]; exact h2
      · have h1 : b1.area ≠ 0 := fun hc => hboth ⟨hc, h2⟩
        rw [hunion, h2, add_zero]; exact h1
    simp [iouEntry, hne, hinter, hboth]

/-- C8 witness: a concrete instance of `iouEntry_zero_area` — the first
box is a degenerate segment (zero width), the second a unit square; the
IoU entry is defined and equals `0`. -/
theorem iouEntry_zero_area_witness :
    (Box.area ⟨0, 0, 0, 2⟩ = 0 ∨ Box.area ⟨1, 1, 1, 1⟩ = 0) ∧
      iouEntry ⟨0, 0, 0, 2⟩ ⟨1, 1, 1, 1⟩ =
        (if Box.area ⟨0, 0, 0, 2⟩ = 0 ∧ Box.area ⟨1, 1, 1, 1⟩ = 0 then none
         else some 0) :=
  ⟨Or.inl (by norm_num [Box.area]),
   iouEntry_zero_area ⟨0, 0, 0, 2⟩ ⟨1, 1, 1, 1⟩ (Or.inl (by norm_num [Box.area]))⟩

/-- C8 counterexample: when both boxes have zero area the division is
the unguarded `0 / 0` (NaN), so the entry of `iou_batch_xywh` is neither
defined nor `0`, refuting the claimed guard. -/
theorem iou_both_zero_areas_undefined :
    iou_batch_xywh [⟨0, 0, 0, 0⟩] [⟨0, 0, 0, 0⟩] = [[none]] ∧
      Box.area ⟨0, 0, 0, 0⟩ = 0 := by
  norm_num [iou_batch_xywh, iouEntry, unionArea, interArea, interW, interH,
    Box.area, Box.x1, Box.x2, Box.y1, Box.y2]

/-! ### Cross-gating of the first association
(`boxmot/trackers/puretracker/puretrack.py`, lines 394–411) -/

/-- Cost matrices are total maps over row/column indices; all masked
assignments and the final minimum are elementwise. -/
abbrev CostMat := ℕ → ℕ → ℚ

/-- A numpy masked assignment `target[source > t] = 1.0`. -/
def maskAssignGT (target source : CostMat) (t : ℚ) : CostMat :=
  fun i j => if t < source i j then 1 else target i j

/-- The fused first-association cost of the source, for `with_reid`:
```
iou_dists[emb_dists > self.iou_emb_thresh] = 1.0
emb_dists[emb_dists > self.emb_thresh] = 1.0
emb_dists[iou_dists > self.emb_iou_thresh] = 1.0
dists = np.minimum(iou_dists, emb_dists)
```
with `iou0`/`emb0` the matrices before the three masked assignments. -/
def firstAssocDists (iou0 emb0 : CostMat)
    (iou_emb_thresh emb_thresh emb_iou_thresh : ℚ) : CostMat :=
  let iou1 := maskAssignGT iou0 emb0 iou_emb_thresh
  let emb1 := maskAssignGT emb0 emb0 emb_thresh
  let emb2 := maskAssignGT emb1 iou1 emb_iou_thresh
  fun i j => min (iou1 i j) (emb2 i j)

/-- The same computation with the second and third masked assignments
exchanged (the mask of the `emb_thresh` assignment is then evaluated on
the already-overwritten `emb_dists`). -/
def firstAssocDistsSwapped (iou0 emb0 : CostMat)
    (iou_emb_thresh emb_thresh emb_iou_thresh : ℚ) : CostMat :=
  let iou1 := maskAssignGT iou0 emb0 iou_emb_thresh
  let embA := maskAssignGT emb0 iou1 emb_iou_thresh
  let embB := maskAssignGT embA embA emb_thresh
  fun i j => min (iou1 i j) (embB i j)

/-- The spec's description of §4.6 step 3.d, assembled literally: set
`iou_dist` to 1 where `emb_dist > iou_emb_thresh`, then set `emb_dist`
to 1 where `emb_dist > emb_thresh`, then set `emb_dist` to 1 where
`iou_dist > emb_iou_thresh`, then take the elementwise minimum. -/
def specCrossGateCost (iou0 emb0 : CostMat)
    (iou_emb_thresh emb_thresh emb_iou_thresh : ℚ) : CostMat :=
  fun i j =>
    min (maskAssignGT iou0 emb0 iou_emb_thresh i j)
      (maskAssignGT (maskAssignGT emb0 emb0 emb_thresh)
        (maskAssignGT iou0 emb0 iou_emb_thresh) emb_iou_thresh i j)

/-- Exchanging the two assignments into `emb_dists` never changes any
entry of the final cost matrix: an entry of `emb_dists` becomes `1`
exactly when its original value exceeds `emb_thresh` or the
post-assignment `iou_dists` entry exceeds `emb_iou_thresh`, in either
order, and the assigned value `1` is the same in both. -/
lemma firstAssocDists_swap23_eq (iou0 emb0 : CostMat)
    (t1 t2 t3 : ℚ) (i j : ℕ) :
    firstAssocDistsSwapped iou0 emb0 t1 t2 t3 i j =
      firstAssocDists iou0 emb0 t1 t2 t3 i j := by
  simp only [firstAssocDistsSwapped, firstAssocDists, maskAssignGT]
  split_ifs <;> simp_all

/-- C4 counterexample (negation of the order-sensitivity clause): the
computation with the second and third masked assignments swapped is the
same function as the original one — on no input whatsoever can the swap
"change the result". -/
theorem cross_gate_swap23_never_changes_result :
    firstAssocDistsSwapped = firstAssocDists := by
  funext iou0 emb0 t1 t2 t3 i j
  exact firstAssocDists_swap23_eq iou0 emb0 t1 t2 t3 i j

/-- C4 (amended): the source's fused first-association cost is exactly
the spec's three masked assignments applied in the stated order followed
by the elementwise minimum; however, swapping the second and third
assignments never changes the result (the two `emb_dists` assignments
commute — only the position of the first assignment is order-sensitive). -/
theorem first_assoc_cross_gate_order :
    (∀ (iou0 emb0 : CostMat) (t1 t2 t3 : ℚ) (i j : ℕ),
        firstAssocDists iou0 emb0 t1 t2 t3 i j =
          specCrossGateCost iou0 emb0 t1 t2 t3 i j) ∧
      (∀ (iou0 emb0 : CostMat) (t1 t2 t3 : ℚ) (i j : ℕ),
        firstAssocDistsSwapped iou0 emb0 t1 t2 t3 i j =
          firstAssocDists iou0 emb0 t1 t2 t3 i j) :=
  ⟨fun _ _ _ _ _ _ _ => rfl,
   fun iou0 emb0 t1 t2 t3 i j =>
     firstAssocDists_swap23_eq iou0 emb0 t1 t2 t3 i j⟩

/-! ### Embedding aggregator
(`boxmot/trackers/puretracker/storage.py`, class `EmbeddingHandler`) -/

/-- Sum of squares of a row: the square of `np.linalg.norm(row)`. -/
def sqNorm (v : List ℝ) : ℝ := (v.map fun x => x * x).sum

/-- `np.linalg.norm(row)`: the row's L2 norm. -/
noncomputable def l2norm (v : List ℝ) : ℝ := Real.sqrt (sqNorm v)

/-- The row-wise normalization
`new_embs /= np.linalg.norm(new_embs, axis=1)[:, np.newaxis]`
performed on the new embeddings before blending. -/
noncomputable def normalizeRow (v : List ℝ) : List ℝ :=
  v.map fun e => e / l2norm v

/-- The two values of the class attribute `EmbeddingHandler._mode` the
source branches on. -/
inductive EmbMode where
  | ema
  | last
  deriving DecidableEq

/-- `EmbeddingHandler.update(prev_embs, new_embs)`: normalize the new
rows; in `ema` mode return `prev_embs * α + new_embs * (1 - α)`
elementwise (the source performs no further normalization of the
blend); in `last` mode return the normalized new rows. The parameter
`a` is the class attribute `_ema_alpha`. -/
noncomputable def EmbeddingHandler.update (mode : EmbMode) (a : ℝ)
    (prev new : List (List ℝ)) : List (List ℝ) :=
  let newN := new.map normalizeRow
  match mode with
  | EmbMode.ema =>
      List.zipWith
        (fun p n => List.zipWith (fun pe ne => pe * a + ne * (1 - a)) p n)
        prev newN
  | EmbMode.last => newN

/-- The ema blend as the (amended) spec phrases it:
`α·e_prev + (1−α)·normalize(e_new)`, with no final normalization. -/
noncomputable def emaBlendSpec (a : ℝ) (prev new : List (List ℝ)) :
    List (List ℝ) :=
  List.zipWith
    (fun p n => List.zipWith (fun x y => a * x + (1 - a) * y) p (normalizeRow n))
    prev new

lemma zipWith_ext {α β γ : Type} (f g : α → β → γ) (h : ∀ a b, f a b = g a b) :
    ∀ (as : List α) (bs : List β), List.zipWith f as bs = List.zipWith g as bs := by
  intro as
  induction as with
  | nil => intro bs; simp
  | cons a as ih => intro bs; cases bs <;> simp_all

/-- C6 (amended): in `ema` mode, `EmbeddingHandler.update` returns
`α·e_prev + (1−α)·e_new` with `e_new` first L2-normalized row-wise, and
performs no final normalization of the blended rows (so a returned row
need not have unit norm). -/
theorem ema_update_blends_without_final_normalization :
    ∀ (a : ℝ) (prev new : List (List ℝ)),
      EmbeddingHandler.update EmbMode.ema a prev new = emaBlendSpec a prev new := by
  intro a prev new
  show List.zipWith _ prev (new.map normalizeRow) = _
  rw [List.zipWith_map_right]
  exact zipWith_ext _ _
    (fun p n => zipWith_ext _ _ (fun x y => by ring) p (normalizeRow n)) prev new

/-- C6 counterexample: with `α = 0.9` (the tracker's default
`emb_ema_alpha`), blending the unit row `[1, 0]` with the unit row
`[0, 1]` yields `[0.9, 0.1]`, whose L2 norm is not `1` — the blended
result is not L2-normalized, refuting the claimed final normalization. -/
theorem ema_update_row_not_unit_norm :
    EmbeddingHandler.update EmbMode.ema (9 / 10) [[1, 0]] [[0, 1]] =
        [[9 / 10, 1 / 10]] ∧
      l2norm [(9 : ℝ) / 10, 1 / 10] ≠ 1 := by
  constructor
  · have hn : sqNorm [(0 : ℝ), 1] = 1 := by norm_num [sqNorm]
    simp [EmbeddingHandler.update, normalizeRow, l2norm, hn, Real.sqrt_one]
    norm_num
  · intro h
    rw [l2norm, Real.sqrt_eq_one] at h
    norm_num [sqNorm] at h

/-! ### Track state and track storage
(`boxmot/trackers/puretracker/storage.py`) -/

/-- The `TrackState` class of the source (storage.py lines 40–44). Its
only members are `New = 0`, `Tracked = 1`, `Lost = 2`, `Removed = 3`. -/
inductive TrackState where
  | New
  | Tracked
  | Lost
  | Removed
  deriving DecidableEq, Repr

/-- The integer each `TrackState` member stands for in the source. -/
def TrackState.toNat : TrackState → ℕ
  | .New => 0
  | .Tracked => 1
  | .Lost => 2
  | .Removed => 3

/-- The attribute table of the class `TrackState` (storage.py lines
40–44): Python attribute access `TrackState.<name>` succeeds exactly on
these four names. -/
def trackStateAttrs : List (String × ℕ) :=
  [("New", 0), ("Tracked", 1), ("Lost", 2), ("Removed", 3)]

/-- Python attribute lookup on the class `TrackState`; `none` models an
`AttributeError`. -/
def trackStateLookup (attr : String) : Option ℕ :=
  (trackStateAttrs.find? fun p => p.1 == attr).map fun p => p.2

/-- C2: the track-state type of the source has exactly the members
`New`, `Tracked`, `Lost`, `Removed` — there is no `Reidable` member, so
the lifecycle tick of `PureTrackNew.update_state` (puretrack.py line
249), which reads `TrackState.Reidable` whenever `with_emb_reactivation`
is enabled, hits an `AttributeError`; no state value `Reidable` can ever
be stored, and the value set `{Tracked, Lost, Reidable, Removed}`
claimed for the `state` field is not the member set of the type. -/
theorem trackState_has_no_reidable_member :
    trackStateLookup "Reidable" = none ∧
      trackStateLookup "New" = some 0 ∧
      trackStateLookup "Tracked" = some 1 ∧
      trackStateLookup "Lost" = some 2 ∧
      trackStateLookup "Removed" = some 3 ∧
      ∀ st : TrackState,
        st = TrackState.New ∨ st = TrackState.Tracked ∨
          st = TrackState.Lost ∨ st = TrackState.Removed := by
  refine ⟨by decide, by decide, by decide, by decide, by decide, ?_⟩
  intro st
  cases st
  · exact Or.inl rfl
  · exact Or.inr (Or.inl rfl)
  · exact Or.inr (Or.inr (Or.inl rfl))
  · exact Or.inr (Or.inr (Or.inr rfl))

/-- A detection row after ingest: the `xywh` box (columns 0–3), the
confidence (column 4), the class (column 5) and the original detection
index appended by `_split_dets` (column 6). -/
structure Det where
  box : Box
  conf : ℚ
  cls : ℚ
  det_id : ℚ
  deriving DecidableEq, Repr

/-- The field arrays of `TrackStorage`, addressed by track id: the
source addresses the underlying arrays by storage slot through the
manager's id↔slot bijection, so reads and writes through the property
accessors are maps keyed by track id. The Kalman mean and covariance
types `M`, `C` are abstract — the filter is an external collaborator
specified only at interface level (spec §4.3). -/
structure Storage (M C : Type) where
  means : ℕ → M
  covs : ℕ → C
  boxes : ℕ → Box
  confs : ℕ → ℚ
  classes : ℕ → ℚ
  det_ids : ℕ → ℚ
  embs : ℕ → List ℝ
  pure_embs : ℕ → List ℝ
  states : ℕ → TrackState
  is_activated : ℕ → Bool
  frame_ids : ℕ → ℤ
  start_frames : ℕ → ℤ

/-- The vectorized write `field[pool] = vals`: position `i` of `pool`
receives position `i` of `vals`. (The pools the tracker passes are
arrays of pairwise-distinct ids; for such pools this matches numpy's
scatter semantics.) -/
def writeAt {α : Type} (f : ℕ → α) : List ℕ → List α → ℕ → α
  | [], _ => f
  | _ :: _, [] => f
  | p :: ps, v :: vs => fun id => if id = p then v else writeAt f ps vs id

/-- The vectorized constant write `field[pool] = value`. -/
def setConst {α : Type} (f : ℕ → α) (pool : List ℕ) (v : α) : ℕ → α :=
  fun id => if id ∈ pool then v else f id

lemma writeAt_get {α : Type} (f : ℕ → α) :
    ∀ (pool : List ℕ) (vals : List α), pool.Nodup →
      ∀ (i : ℕ) (hi : i < pool.length) (hv : i < vals.length),
        writeAt f pool vals (pool.get ⟨i, hi⟩) = vals.get ⟨i, hv⟩ := by
  intro pool
  induction pool with
  | nil => intro vals _ i hi hv; simp at hi
  | cons p ps ih =>
    intro vals hnd i hi hv
    cases vals with
    | nil => simp at hv
    | cons v vs =>
      cases i with
      | zero => simp [writeAt]
      | succ n =>
        have hn : n < ps.length := by simpa using hi
        have hne : ps.get ⟨n, hn⟩ ≠ p := by
          intro hc
          exact (List.nodup_cons.mp hnd).1 (hc ▸ List.get_mem ps n hn)
        simp only [writeAt, List.get_cons_succ, hne, if_false]
        exact ih vs (List.nodup_cons.mp hnd).2 n hn (by simpa using hv)

lemma setConst_mem {α : Type} (f : ℕ → α) (pool : List ℕ) (v : α) (id : ℕ)
    (h : id ∈ pool) : setConst f pool v id = v := by
  simp [setConst, h]

/-- `TrackStorage.update(track_pool, dets, frame_ids, embs=None)`
(storage.py lines 307–337). Note the signature: there are no
`pure_slots`/`pure_embs` parameters. It early-returns on an empty pool
or empty dets; otherwise it writes `frame_ids`, Kalman-updates the
means and covariances (`kfU` is the external `kalman_filter.update`,
applied row-wise as `multi_update` does), EMA-blends the running
embeddings when `embs` is supplied, overwrites conf/class/det_id and
sets `is_activated`. -/
noncomputable def Storage.update {M C : Type} (kfU : M → C → Box → M × C)
    (mode : EmbMode) (a : ℝ) (s : Storage M C) (track_pool : List ℕ)
    (dets : List Det) (frame : ℤ) (embs : Option (List (List ℝ))) :
    Storage M C :=
  if track_pool = [] ∨ dets = [] then s
  else
    { s with
      frame_ids := setConst s.frame_ids track_pool frame,
      means := writeAt s.means track_pool
        (List.zipWith (fun id d => (kfU (s.means id) (s.covs id) d.box).1)
          track_pool dets),
      covs := writeAt s.covs track_pool
        (List.zipWith (fun id d => (kfU (s.means id) (s.covs id) d.box).2)
          track_pool dets),
      embs :=
        match embs with
        | some newE =>
            writeAt s.embs track_pool
              (EmbeddingHandler.update mode a (track_pool.map s.embs) newE)
        | none => s.embs,
      confs := writeAt s.confs track_pool (dets.map Det.conf),
      classes := writeAt s.classes track_pool (dets.map Det.cls),
      det_ids := writeAt s.det_ids track_pool (dets.map Det.det_id),
      is_activated := setConst s.is_activated track_pool true }

/-- `TrackStorage.reactivate(track_pool, dets, frame_ids, embs=None)`
(storage.py lines 368–392): Kalman-updates means/covs, resets
`frame_ids`, sets the state to `Tracked` and `is_activated` to true,
and overwrites conf/class/det_id. The `embs` parameter is accepted and
ignored (see the source's TODO): neither `embs` nor `pure_embs` is
touched. -/
def Storage.reactivate {M C : Type} (kfU : M → C → Box → M × C)
    (s : Storage M C) (track_pool : List ℕ) (dets : List Det)
    (frame : ℤ) (embs : Option (List (List ℝ))) : Storage M C :=
  if track_pool = [] ∨ dets = [] then s
  else
    { s with
      means := writeAt s.means track_pool
        (List.zipWith (fun id d => (kfU (s.means id) (s.covs id) d.box).1)
          track_pool dets),
      covs := writeAt s.covs track_pool
        (List.zipWith (fun id d => (kfU (s.means id) (s.covs id) d.box).2)
          track_pool dets),
      frame_ids := setConst s.frame_ids track_pool frame,
      states := setConst s.states track_pool TrackState.Tracked,
      is_activated := setConst s.is_activated track_pool true,
      confs := writeAt s.confs track_pool (dets.map Det.conf),
      classes := writeAt s.classes track_pool (dets.map Det.cls),
      det_ids := writeAt s.det_ids track_pool (dets.map Det.det_id) }

/-- The parameters of `TrackStorage.update` in the source, in order
(`self` omitted): there is no `pure_slots` and no `pure_embs`. -/
def trackStorageUpdateParams : List String :=
  ["track_pool", "dets", "frame_ids", "embs"]

/-- The number of positional arguments `PureTrackNew.process_matches`
passes to `self.tracks_storage.update` (puretrack.py lines 194–196):
`update_tracks_pool`, `update_dets`, `self.frame_count`, `update_embs`,
`update_pure_tracks_pool`, `update_pure_embs`. -/
def processMatchesUpdateArgCount : ℕ := 6

/-- C1: `TrackStorage.update` cannot blend pure embeddings: its
signature has no `pure_slots`/`pure_embs` parameters, it leaves the
`pure_embs` field unchanged on every call, and the six positional
arguments `process_matches` passes exceed its four parameters, so the
first-association call raises a `TypeError` instead of performing the
claimed guarded pure-embedding update. -/
theorem update_never_blends_pure_embs :
    (∀ (M C : Type) (kfU : M → C → Box → M × C) (mode : EmbMode) (a : ℝ)
        (s : Storage M C) (pool : List ℕ) (dets : List Det) (frame : ℤ)
        (embs : Option (List (List ℝ))),
        (Storage.update kfU mode a s pool dets frame embs).pure_embs =
          s.pure_embs) ∧
      trackStorageUpdateParams.length < processMatchesUpdateArgCount := by
  refine ⟨?_, by decide⟩
  intro M C kfU mode a s pool dets frame embs
  unfold Storage.update
  split <;> rfl

/-- C9: `TrackStorage.reactivate` on a non-empty pool (paired with its
matched detections, as at every call site — including the reID
re-activation path, which passes an `embs` argument) leaves the running
embeddings `embs` and the `pure_embs` field unchanged, and overwrites
mean, cov, state (to `Tracked`), `is_activated` (to true), frame id,
conf, class and det id from the matched detections. -/
theorem reactivate_preserves_embeddings {M C : Type}
    (kfU : M → C → Box → M × C) (s : Storage M C) (pool : List ℕ)
    (dets : List Det) (frame : ℤ) (embs : Option (List (List ℝ)))
    (hp : pool ≠ []) (hnd : pool.Nodup) (hlen : pool.length = dets.length) :
    (Storage.reactivate kfU s pool dets frame embs).embs = s.embs ∧
      (Storage.reactivate kfU s pool dets frame embs).pure_embs = s.pure_embs ∧
      ∀ (i : ℕ) (hi : i < pool.length) (hd : i < dets.length),
        (Storage.reactivate kfU s pool dets frame embs).states
            (pool.get ⟨i, hi⟩) = TrackState.Tracked ∧
        (Storage.reactivate kfU s pool dets frame embs).is_activated
            (pool.get ⟨i, hi⟩) = true ∧
        (Storage.reactivate kfU s pool dets frame embs).frame_ids
            (pool.get ⟨i, hi⟩) = frame ∧
        (Storage.reactivate kfU s pool dets frame embs).means
            (pool.get ⟨i, hi⟩) =
          (kfU (s.means (pool.get ⟨i, hi⟩)) (s.covs (pool.get ⟨i, hi⟩))
            (dets.get ⟨i, hd⟩).box).1 ∧
        (Storage.reactivate kfU s pool dets frame embs).covs
            (pool.get ⟨i, hi⟩) =
          (kfU (s.means (pool.get ⟨i, hi⟩)) (s.covs (pool.get ⟨i, hi⟩))
            (dets.get ⟨i, hd⟩).box).2 ∧
        (Storage.reactivate kfU s pool dets frame embs).confs
            (pool.get ⟨i, hi⟩) = (dets.get ⟨i, hd⟩).conf ∧
        (Storage.reactivate kfU s pool dets frame embs).classes
            (pool.get ⟨i, hi⟩) = (dets.get ⟨i, hd⟩).cls ∧
        (Storage.reactivate kfU s pool dets frame embs).det_ids
            (pool.get ⟨i, hi⟩) = (dets.get ⟨i, hd⟩).det_id := by
  have hdne : dets ≠ [] := by
    intro h
    apply hp
    rw [h] at hlen
    exact List.eq_nil_of_length_eq_zero (by simpa using hlen)
  have hcond : ¬(pool = [] ∨ dets = []) := by
    rintro (h | h)
    · exact hp h
    · exact hdne h
  rw [Storage.reactivate, if_neg hcond]
  refine ⟨rfl, rfl, ?_⟩
  intro i hi hd
  have hmem : pool.get ⟨i, hi⟩ ∈ pool := List.get_mem pool i hi
  have hzip : i < (List.zipWith
      (fun id d => (kfU (s.means id) (s.covs id) d.box).1) pool dets).length := by
    simpa [List.length_zipWith] using lt_min hi hd
  have hzip2 : i < (List.zipWith
      (fun id d => (kfU (s.means id) (s.covs id) d.box).2) pool dets).length := by
    simpa [List.length_zipWith] using lt_min hi hd
  have hmap1 : i < (dets.map Det.conf).length := by simpa using hd
  have hmap2 : i < (dets.map Det.cls).length := by simpa using hd
  have hmap3 : i < (dets.map Det.det_id).length := by simpa using hd
  refine ⟨setConst_mem _ _ _ _ hmem, setConst_mem _ _ _ _ hmem,
    setConst_mem _ _ _ _ hmem, ?_, ?_, ?_, ?_, ?_⟩
  · exact (writeAt_get s.means pool _ hnd i hi hzip).trans (by simp)
  · exact (writeAt_get s.covs pool _ hnd i hi hzip2).trans (by simp)
  · exact (writeAt_get s.confs pool _ hnd i hi hmap1).trans (by simp)
  · exact (writeAt_get s.classes pool _ hnd i hi hmap2).trans (by simp)
  · exact (writeAt_get s.det_ids pool _ hnd i hi hmap3).trans (by simp)

/-- A concrete storage instance (one lost, unconfirmed track everywhere)
used by the witnesses below. -/
def witnessStorage : Storage ℚ ℚ where
  means := fun _ => 0
  covs := fun _ => 1
  boxes := fun _ => ⟨0, 0, 0, 0⟩
  confs := fun _ => 0
  classes := fun _ => 0
  det_ids := fun _ => 0
  embs := fun _ => []
  pure_embs := fun _ => []
  states := fun _ => TrackState.Lost
  is_activated := fun _ => false
  frame_ids := fun _ => 0
  start_frames := fun _ => 0

/-- C9 witness: a concrete reactivation of the single track `7` from a
concrete matched detection at frame `3`, passing an `embs` argument as
the reID path does; the hypotheses hold by computation and the running
embeddings are unchanged. -/
theorem reactivate_preserves_embeddings_witness :
    ([7] : List ℕ) ≠ [] ∧ ([7] : List ℕ).Nodup ∧
      ([7] : List ℕ).length = [Det.mk ⟨1, 2, 3, 4⟩ (9/10) 0 5].length ∧
      (Storage.reactivate (fun (m c : ℚ) (_ : Box) => (m + c, c))
          witnessStorage [7] [Det.mk ⟨1, 2, 3, 4⟩ (9/10) 0 5] 3
          (some [[1]])).embs = witnessStorage.embs :=
  ⟨by decide, by decide, by decide,
    (reactivate_preserves_embeddings (fun (m c : ℚ) (_ : Box) => (m + c, c))
      witnessStorage [7] [Det.mk ⟨1, 2, 3, 4⟩ (9/10) 0 5] 3 (some [[1]])
      (by decide) (by decide) (by decide)).1⟩

/-! ### Emit step of the per-frame entrypoint
(`boxmot/trackers/puretracker/puretrack.py`, lines 611–621) -/

/-- `xywh2xyxy` of one box: `[x − w/2, y − h/2, x + w/2, y + h/2]`. -/
def xywh2xyxyRow (b : Box) : List ℚ := [b.x1, b.y1, b.x2, b.y2]

/-- The emit step of `PureTrackNew.update`: when the output pool is
non-empty, the result is `np.hstack((xyxys, ids, confs, classes,
det_ids))` — one 8-column row per output track, the box taken from the
Kalman mean's first four entries (here `means : ℕ → Box`); when the
pool is empty, the source returns `np.empty((0, 6), dtype=np.float32)`,
an empty array with six columns. The result is modelled as the column
count of the returned array together with its rows. -/
def emitOutputs {C : Type} (s : Storage Box C) (output_pool : List ℕ) :
    ℕ × List (List ℚ) :=
  if 0 < output_pool.length then
    (8, output_pool.map fun id =>
      xywh2xyxyRow (s.means id) ++
        [(id : ℚ), s.confs id, s.classes id, s.det_ids id])
  else
    (6, [])

/-- C3: every row emitted for a non-empty output pool has exactly 8
columns `(x1, y1, x2, y2, id, conf, class, det_id)`, but when no
activated active track exists the returned empty array has 6 columns,
not the claimed `[0, 8]` shape. -/
theorem emit_output_column_counts :
    (∀ (C : Type) (s : Storage Box C) (pool : List ℕ),
        pool ≠ [] →
          (emitOutputs s pool).1 = 8 ∧
            ∀ row ∈ (emitOutputs s pool).2, row.length = 8) ∧
      ∀ (C : Type) (s : Storage Box C), (emitOutputs s []).1 = 6 := by
  constructor
  · intro C s pool hp
    have hl : 0 < pool.length := List.length_pos.mpr hp
    refine ⟨by simp [emitOutputs, hl], ?_⟩
    intro row hrow
    simp only [emitOutputs, if_pos hl, List.mem_map] at hrow
    obtain ⟨id, _, rfl⟩ := hrow
    simp [xywh2xyxyRow]
  · intro C s
    simp [emitOutputs]

/-! ### Duplicate suppression
(`boxmot/trackers/puretracker/puretrack.py`, lines 632–669) -/

/-- Track lifetime `frame_id − start_frame` used to break duplicates. -/
def lifetime {C : Type} (s : Storage Box C) (id : ℕ) : ℤ :=
  s.frame_ids id - s.start_frames id

/-- Whether a cross-pair lands in `np.where(pdist < 0.15)`: the IoU
distance `1 − iou` of the two Kalman-mean boxes is below `0.15`. A NaN
IoU entry compares false. -/
def isDupPair {C : Type} (s : Storage Box C) (a b : ℕ) : Bool :=
  match iouEntry (s.means a) (s.means b) with
  | some v => decide (1 - v < 3 / 20)
  | none => false

/-- `PureTrackNew.remove_duplicates(tracksa_pool, tracksb_pool)`: after
the early return on an empty pool, drop from `a` exactly the tracks
that are the strictly shorter-lived member of some duplicate pair
(`timesa < timesb`), and from `b` those with `timesb < timesa`.
`np.setdiff1d` is modelled at membership level by a filter (it also
sorts and dedups its result, which does not affect membership). -/
def remove_duplicates {C : Type} (s : Storage Box C)
    (tracksa_pool tracksb_pool : List ℕ) : List ℕ × List ℕ :=
  if tracksa_pool = [] ∨ tracksb_pool = [] then (tracksa_pool, tracksb_pool)
  else
    (tracksa_pool.filter fun a =>
       !(tracksb_pool.any fun b =>
          isDupPair s a b && decide (lifetime s a < lifetime s b)),
     tracksb_pool.filter fun b =>
       !(tracksa_pool.any fun a =>
          isDupPair s a b && decide (lifetime s b < lifetime s a)))

/-- C7 (amended): for non-empty pools, a track survives
`remove_duplicates` in pool A exactly when it is the strictly
shorter-lived member of no duplicate cross-pair, and symmetrically for
pool B. In particular the strictly shorter-lived member of every
sub-0.15 pair is dropped, and a pair with equal lifetimes drops
neither track (the legacy tie rule of dropping from A is not applied). -/
theorem remove_duplicates_membership {C : Type} (s : Storage Box C)
    (pa pb : List ℕ) (ha : pa ≠ []) (hb : pb ≠ []) :
    (∀ a, a ∈ (remove_duplicates s pa pb).1 ↔
        a ∈ pa ∧ ∀ b ∈ pb, isDupPair s a b = true →
          ¬(lifetime s a < lifetime s b)) ∧
      ∀ b, b ∈ (remove_duplicates s pa pb).2 ↔
        b ∈ pb ∧ ∀ a ∈ pa, isDupPair s a b = true →
          ¬(lifetime s b < lifetime s a) := by
  have hcond : ¬(pa = [] ∨ pb = []) := by
    rintro (h | h)
    · exact ha h
    · exact hb h
  rw [remove_duplicates, if_neg hcond]
  constructor
  · intro a
    simp [List.mem_filter, List.any_eq_true]
  · intro b
    simp [List.mem_filter, List.any_eq_true]

/-- Two tracks with identical Kalman-mean boxes and identical lifetimes
(frames 1 to 5), used to exercise the tie case of
`remove_duplicates`. -/
def tieStorage : Storage Box Unit where
  means := fun _ => ⟨0, 0, 2, 2⟩
  covs := fun _ => ()
  boxes := fun _ => ⟨0, 0, 2, 2⟩
  confs := fun _ => 1
  classes := fun _ => 0
  det_ids := fun _ => 0
  embs := fun _ => []
  pure_embs := fun _ => []
  states := fun _ => TrackState.Tracked
  is_activated := fun _ => true
  frame_ids := fun _ => 5
  start_frames := fun _ => 1

/-- C7 counterexample: tracks `1` (pool A) and `2` (pool B) are a
duplicate pair (IoU distance 0 < 0.15) with equal lifetimes, yet
`remove_duplicates` keeps both — the track from pool A is not dropped,
refuting the claimed tie rule. -/
theorem remove_duplicates_tie_keeps_both :
    isDupPair tieStorage 1 2 = true ∧
      lifetime tieStorage 1 = lifetime tieStorage 2 ∧
      remove_duplicates tieStorage [1] [2] = ([1], [2]) := by
  have hdup : isDupPair tieStorage 1 2 = true := by
    norm_num [isDupPair, iouEntry, unionArea, interArea, interW, interH,
      Box.area, Box.x1, Box.x2, Box.y1, Box.y2, tieStorage]
  refine ⟨hdup, rfl, ?_⟩
  simp [remove_duplicates, hdup, lifetime, tieStorage]

/-- C7 witness of the amended theorem: its membership characterization
instantiated at the concrete tie configuration. -/
theorem remove_duplicates_membership_witness :
    ([1] : List ℕ) ≠ [] ∧ ([2] : List ℕ) ≠ [] ∧
      (1 ∈ (remove_duplicates tieStorage [1] [2]).1 ↔
        1 ∈ ([1] : List ℕ) ∧ ∀ b ∈ ([2] : List ℕ),
          isDupPair tieStorage 1 b = true →
            ¬(lifetime tieStorage 1 < lifetime tieStorage b)) :=
  ⟨by decide, by decide,
    (remove_duplicates_membership tieStorage [1] [2] (by decide) (by decide)).1 1⟩

/-- C3 witness: the emit step on the concrete pool `[3]` produces an
8-column array, and on the empty pool a 6-column empty array. -/
theorem emit_output_column_counts_witness :
    ([3] : List ℕ) ≠ [] ∧
      (emitOutputs tieStorage [3]).1 = 8 ∧
      (emitOutputs tieStorage []).1 = 6 :=
  ⟨by decide,
    (emit_output_column_counts.1 Unit tieStorage [3] (by decide)).1,
    emit_output_column_counts.2 Unit tieStorage⟩

/-! ### Id allocation
(`TrackStorageManager`, storage.py lines 47–127, and the minting path of
`TrackStorage.activate`, lines 339–366) -/

/-- The state of `TrackStorageManager` relevant to id allocation:
`maxId` is `_max_id`, `live` the key set of `_track_to_storage`, `size`
is `_size` (so `space_left() = size − live.length`). The field `ever`
is a ghost history recording every id ever added; it has no counterpart
in the source state and is never read by any operation. -/
structure MgrState where
  maxId : ℕ
  live : List ℕ
  size : ℕ
  ever : List ℕ
  deriving DecidableEq, Repr

/-- A fresh manager: `_max_id = 0`, no tracks, `size` free slots. -/
def MgrState.init (size : ℕ) : MgrState := ⟨0, [], size, []⟩

/-- `TrackStorageManager.add(track_id)`: a duplicate id or a full
manager raises (`none`); otherwise `_max_id` absorbs the id and a free
slot is consumed. -/
def MgrState.add (s : MgrState) (id : ℕ) : Option MgrState :=
  if id ∈ s.live then none
  else if s.size ≤ s.live.length then none
  else some ⟨max s.maxId id, id :: s.live, s.size, id :: s.ever⟩

/-- `TrackStorageManager.remove(track_id)`: removing an unknown id
raises; otherwise the slot is freed. `_max_id` is not touched. -/
def MgrState.remove (s : MgrState) (id : ℕ) : Option MgrState :=
  if id ∈ s.live then some ⟨s.maxId, s.live.erase id, s.size, s.ever⟩
  else none

/-- `TrackStorageManager.cleanup(save_ids)`: remove every live id not
in `save_ids`. `_max_id` is not touched. -/
def MgrState.cleanup (s : MgrState) (save : List ℕ) : MgrState :=
  ⟨s.maxId, s.live.filter fun id => decide (id ∈ save), s.size, s.ever⟩

/-- The id-minting path of `TrackStorage.activate` on a batch of `n`
detections: `tracks_pool = np.arange(max_id + 1, max_id + 1 + n)`; the
first property write routes the new ids through
`translate_track_ids(create_new=True)`, which doubles the capacity once
when the batch exceeds the free space and then adds each id in order.
Returns the updated manager state and the minted ids. -/
def MgrState.mint (s : MgrState) (n : ℕ) : Option (MgrState × List ℕ) :=
  let ids := (List.range n).map fun k => s.maxId + 1 + k
  let s1 := if s.size - s.live.length < n then { s with size := 2 * s.size }
    else s
  match ids.foldlM MgrState.add s1 with
  | some s2 => some (s2, ids)
  | none => none

/-- One manager-level operation of the tracker: a generic `add`, a
`remove`, a `cleanup`, or the minting step of `activate` on a batch of
`n` detections. -/
inductive MgrOp where
  | add (id : ℕ)
  | remove (id : ℕ)
  | cleanup (save : List ℕ)
  | mint (n : ℕ)

/-- Run one operation; `none` models a raised exception. Besides the
new state, the ids minted by the operation are returned (empty for the
non-minting operations). -/
def MgrState.step (s : MgrState) : MgrOp → Option (MgrState × List ℕ)
  | MgrOp.add id => (s.add id).map fun s' => (s', [])
  | MgrOp.remove id => (s.remove id).map fun s' => (s', [])
  | MgrOp.cleanup save => some (s.cleanup save, [])
  | MgrOp.mint n => s.mint n

/-- Run a sequence of operations, collecting the minted batches. -/
def MgrState.run (s : MgrState) : List MgrOp → Option (MgrState × List (List ℕ))
  | [] => some (s, [])
  | op :: ops =>
    match s.step op with
    | none => none
    | some (s1, ids) =>
      match s1.run ops with
      | none => none
      | some (s2, batches) => some (s2, ids :: batches)

/-- Every id ever added is bounded by `_max_id`. -/
def MgrState.EverBounded (s : MgrState) : Prop := ∀ id ∈ s.ever, id ≤ s.maxId

lemma add_some_facts {s : MgrState} {id : ℕ} {s' : MgrState}
    (h : s.add id = some s') :
    s.maxId ≤ s'.maxId ∧ s'.ever = id :: s.ever ∧ id ≤ s'.maxId := by
  unfold MgrState.add at h
  split at h
  · exact absurd h (by simp)
  · split at h
    · exact absurd h (by simp)
    · simp only [Option.some.injEq] at h
      subst h
      exact ⟨le_max_left _ _, rfl, le_max_right _ _⟩

lemma foldAdd_facts : ∀ (ids : List ℕ) (s s' : MgrState),
    ids.foldlM MgrState.add s = some s' →
      s.maxId ≤ s'.maxId ∧ (s.EverBounded → s'.EverBounded) ∧
        ∀ e ∈ s.ever, e ∈ s'.ever := by
  intro ids
  induction ids with
  | nil =>
    intro s s' h
    simp only [List.foldlM_nil, pure, Option.some.injEq] at h
    subst h
    exact ⟨le_refl _, fun hb => hb, fun e he => he⟩
  | cons a as ih =>
    intro s s' h
    rw [List.foldlM_cons] at h
    cases hadd : s.add a with
    | none => rw [hadd] at h; exact absurd h (by simp)
    | some s1 =>
      rw [hadd] at h
      simp only [Option.bind_eq_bind, Option.some_bind] at h
      obtain ⟨h1, h2, h3⟩ := add_some_facts hadd
      obtain ⟨ih1, ih2, ih3⟩ := ih s1 s' h
      refine ⟨h1.trans ih1, fun hb => ih2 ?_, fun e he => ih3 e ?_⟩
      · intro e he
        rw [h2] at he
        rcases List.mem_cons.mp he with rfl | he
        · exact h3
        · exact (hb e he).trans h1
      · rw [h2]; exact List.mem_cons_of_mem a he

lemma mint_s1_facts (s : MgrState) (n : ℕ) :
    (if s.size - s.live.length < n then { s with size := 2 * s.size }
      else s).maxId = s.maxId ∧
    (if s.size - s.live.length < n then { s with size := 2 * s.size }
      else s).ever = s.ever := by
  split <;> exact ⟨rfl, rfl⟩

lemma mint_some_facts {s : MgrState} {n : ℕ} {s' : MgrState} {ids : List ℕ}
    (h : s.mint n = some (s', ids)) :
    ids = ((List.range n).map fun k => s.maxId + 1 + k) ∧
      s.maxId ≤ s'.maxId ∧ (s.EverBounded → s'.EverBounded) ∧
      ∀ e ∈ s.ever, e ∈ s'.ever := by
  unfold MgrState.mint at h
  dsimp only at h
  obtain ⟨hm, he⟩ := mint_s1_facts s n
  cases hfold : (((List.range n).map fun k => s.maxId + 1 + k).foldlM
      MgrState.add
      (if s.size - s.live.length < n then { s with size := 2 * s.size }
        else s)) with
  | none => rw [hfold] at h; exact absurd h (by simp)
  | some s2 =>
    rw [hfold] at h
    simp only [Option.some.injEq, Prod.mk.injEq] at h
    obtain ⟨rfl, rfl⟩ := h
    obtain ⟨f1, f2, f3⟩ := foldAdd_facts _ _ s2 hfold
    refine ⟨rfl, ?_, ?_, ?_⟩
    · rw [← hm]; exact f1
    · intro hb
      apply f2
      intro e hee
      rw [he] at hee
      rw [hm]
      exact hb e hee
    · intro e hee
      apply f3
      rw [he]
      exact hee

lemma step_facts {s : MgrState} {op : MgrOp} {s' : MgrState} {ids : List ℕ}
    (h : s.step op = some (s', ids)) :
    s.maxId ≤ s'.maxId ∧ (s.EverBounded → s'.EverBounded) ∧
      (∀ a ∈ ids, s.maxId < a) ∧ ids.Nodup := by
  cases op with
  | add id =>
    simp only [MgrState.step] at h
    cases hadd : s.add id with
    | none => rw [hadd] at h; exact absurd h (by simp)
    | some s1 =>
      rw [hadd] at h
      simp only [Option.map_some', Option.some.injEq, Prod.mk.injEq] at h
      obtain ⟨rfl, rfl⟩ := h
      obtain ⟨h1, h2, h3⟩ := add_some_facts hadd
      refine ⟨h1, fun hb e he => ?_, by simp, List.nodup_nil⟩
      rw [h2] at he
      rcases List.mem_cons.mp he with rfl | he
      · exact h3
      · exact (hb e he).trans h1
  | remove id =>
    simp only [MgrState.step] at h
    cases hrem : s.remove id with
    | none => rw [hrem] at h; exact absurd h (by simp)
    | some s1 =>
      rw [hrem] at h
      simp only [Option.map_some', Option.some.injEq, Prod.mk.injEq] at h
      obtain ⟨rfl, rfl⟩ := h
      unfold MgrState.remove at hrem
      split at hrem
      · simp only [Option.some.injEq] at hrem
        subst hrem
        exact ⟨le_refl _, fun hb => hb, by simp, List.nodup_nil⟩
      · exact absurd hrem (by simp)
  | cleanup save =>
    simp only [MgrState.step, Option.some.injEq, Prod.mk.injEq] at h
    obtain ⟨rfl, rfl⟩ := h
    exact ⟨le_refl _, fun hb => hb, by simp, List.nodup_nil⟩
  | mint n =>
    simp only [MgrState.step] at h
    obtain ⟨hids, h1, h2, _⟩ := mint_some_facts h
    refine ⟨h1, h2, ?_, ?_⟩
    · intro a ha
      rw [hids] at ha
      obtain ⟨k, _, rfl⟩ := List.mem_map.mp ha
      omega
    · rw [hids]
      refine List.Nodup.map ?_ (List.nodup_range n)
      intro k1 k2 hk
      dsimp only at hk
      omega

lemma run_facts : ∀ (ops : List MgrOp) (s s' : MgrState)
    (batches : List (List ℕ)), s.run ops = some (s', batches) →
      s.maxId ≤ s'.maxId ∧ (s.EverBounded → s'.EverBounded) ∧
        (∀ batch ∈ batches, ∀ a ∈ batch, s.maxId < a) ∧
        ∀ batch ∈ batches, batch.Nodup := by
  intro ops
  induction ops with
  | nil =>
    intro s s' batches h
    simp only [MgrState.run, Option.some.injEq, Prod.mk.injEq] at h
    obtain ⟨rfl, rfl⟩ := h
    exact ⟨le_refl _, fun hb => hb, by simp, by simp⟩
  | cons op ops ih =>
    intro s s' batches h
    rw [MgrState.run] at h
    cases hstep : s.step op with
    | none => rw [hstep] at h; exact absurd h (by simp)
    | some p1 =>
      obtain ⟨s1, ids⟩ := p1
      rw [hstep] at h
      dsimp only at h
      cases hrun : s1.run ops with
      | none => rw [hrun] at h; exact absurd h (by simp)
      | some p2 =>
        obtain ⟨s2, bs⟩ := p2
        rw [hrun] at h
        dsimp only at h
        simp only [Option.some.injEq, Prod.mk.injEq] at h
        obtain ⟨rfl, rfl⟩ := h
        obtain ⟨t1, t2, t3, t4⟩ := step_facts hstep
        obtain ⟨r1, r2, r3, r4⟩ := ih s1 s2 bs hrun
        refine ⟨t1.trans r1, fun hb => r2 (t2 hb), ?_, ?_⟩
        · intro batch hbatch a ha
          rcases List.mem_cons.mp hbatch with rfl | hbatch
          · exact t3 a ha
          · exact lt_of_le_of_lt t1 (r3 batch hbatch a ha)
        · intro batch hbatch
          rcases List.mem_cons.mp hbatch with rfl | hbatch
          · exact t4
          · exact r4 batch hbatch

/-- C5: ids minted by `TrackStorage.activate` are the consecutive run
`max_id + 1, …, max_id + n`; `_max_id` never decreases across any
operation (`add`, `remove`, `cleanup`, minting); and over any run
started from a fresh manager, every id minted after a split point is
strictly greater than every id that ever existed up to that point, and
every minted batch is duplicate-free — so no id is ever assigned to two
different track lineages. -/
theorem minted_ids_monotone_and_fresh :
    (∀ (s : MgrState) (n : ℕ) (s' : MgrState) (ids : List ℕ),
        MgrState.step s (MgrOp.mint n) = some (s', ids) →
          ids = (List.range n).map fun k => s.maxId + 1 + k) ∧
      (∀ (s : MgrState) (op : MgrOp) (s' : MgrState) (ids : List ℕ),
        MgrState.step s op = some (s', ids) → s.maxId ≤ s'.maxId) ∧
      ∀ (size : ℕ) (ops1 ops2 : List MgrOp) (s1 s2 : MgrState)
        (b1 b2 : List (List ℕ)),
        MgrState.run (MgrState.init size) ops1 = some (s1, b1) →
        MgrState.run s1 ops2 = some (s2, b2) →
        (∀ e ∈ s1.ever, ∀ batch ∈ b2, ∀ a ∈ batch, e < a) ∧
          ∀ batch ∈ b2, batch.Nodup := by
  refine ⟨?_, ?_, ?_⟩
  · intro s n s' ids h
    exact (mint_some_facts (by simpa [MgrState.step] using h)).1
  · intro s op s' ids h
    exact (step_facts h).1
  · intro size ops1 ops2 s1 s2 b1 b2 h1 h2
    have hinit : (MgrState.init size).EverBounded := by
      intro id hid
      simp [MgrState.init] at hid
    obtain ⟨_, e2, _, _⟩ := run_facts ops1 (MgrState.init size) s1 b1 h1
    obtain ⟨_, _, g3, g4⟩ := run_facts ops2 s1 s2 b2 h2
    refine ⟨?_, g4⟩
    intro e he batch hbatch a ha
    exact lt_of_le_of_lt (e2 hinit e he) (g3 batch hbatch a ha)

/-- C5 witness: a concrete run — mint ids 1 and 2 on the first frame,
remove id 1, then mint id 3 later; the theorem's conclusions hold at
this run, and the runs themselves evaluate as stated. -/
theorem minted_ids_monotone_and_fresh_witness :
    MgrState.run (MgrState.init 4) [MgrOp.mint 2, MgrOp.remove 1] =
        some (⟨2, [2], 4, [2, 1]⟩, [[1, 2], []]) ∧
      MgrState.run ⟨2, [2], 4, [2, 1]⟩ [MgrOp.mint 1] =
        some (⟨3, [3, 2], 4, [3, 2, 1]⟩, [[3]]) ∧
      (∀ e ∈ (⟨2, [2], 4, [2, 1]⟩ : MgrState).ever,
          ∀ batch ∈ [[3]], ∀ a ∈ batch, e < a) ∧
      ∀ batch ∈ ([[3]] : List (List ℕ)), batch.Nodup :=
  ⟨by decide, by decide,
    (minted_ids_monotone_and_fresh.2.2 4 [MgrOp.mint 2, MgrOp.remove 1]
      [MgrOp.mint 1] ⟨2, [2], 4, [2, 1]⟩ ⟨3, [3, 2], 4, [3, 2, 1]⟩
      [[1, 2], []] [[3]] (by decide) (by decide)).1,
    (minted_ids_monotone_and_fresh.2.2 4 [MgrOp.mint 2, MgrOp.remove 1]
      [MgrOp.mint 1] ⟨2, [2], 4, [2, 1]⟩ ⟨3, [3, 2], 4, [3, 2, 1]⟩
      [[1, 2], []] [[3]] (by decide) (by decide)).2⟩

/-! ### Pure-detection selection in the first association
(`boxmot/trackers/puretracker/puretrack.py`, lines 456–464) -/

/-- Whether the pure-detection selection block executes. The source
guard is `if self.with_emb_reactivation and vrs is not None`, and `vrs`
is not `None` exactly when the first-association pool and the
high-confidence detections are both non-empty (`iou_distance` with
`calc_vr=True` only returns `vrs=None` when one of them is empty). -/
def pureSelectionAttempted (with_emb_reactivation : Bool)
    (numTracksPool numDetsHigh : ℕ) : Bool :=
  with_emb_reactivation && decide (numTracksPool ≠ 0) &&
    decide (numDetsHigh ≠ 0)

/-- `np.partition(vrs, 1, axis=0)[1, :]`: the second-smallest entry of
each column of the `T×D` visibility-ratio matrix, where `T` is the
number of tracks in the first-association pool. `np.partition` with
`kth = 1` raises a `ValueError` unless the partitioned axis has length
at least 2; the out-of-bounds case is modelled as `none`. -/
def closestVrs (vrs : List (List ℚ)) : Option (List ℚ) :=
  if 2 ≤ vrs.length then
    some (vrs.transpose.map fun col => (col.insertionSort (· ≤ ·)).getD 1 0)
  else none

/-- C10: with `with_emb_reactivation` enabled, a single-track
first-association pool together with at least one high-confidence
detection passes the guard (`vrs` is computed), yet
`np.partition(vrs, 1, axis=0)` on the resulting `1×D` matrix is out of
bounds — the second-smallest selection is only defined for pools of at
least two tracks, and the single-track case has no guard. -/
theorem pure_selection_single_track_out_of_bounds
    (vrs : List (List ℚ)) (d : ℕ) (h1 : vrs.length = 1) :
    pureSelectionAttempted true 1 (d + 1) = true ∧ closestVrs vrs = none := by
  constructor
  · simp [pureSelectionAttempted]
  · simp [closestVrs, h1]

/-- C10 witness: the concrete 1×1 visibility-ratio matrix `[[0]]` (one
track in the pool, one high-confidence detection): the guard passes and
the partition at index 1 is out of bounds. -/
theorem pure_selection_single_track_out_of_bounds_witness :
    ([[(0 : ℚ)]] : List (List ℚ)).length = 1 ∧
      pureSelectionAttempted true 1 1 = true ∧
      closestVrs [[(0 : ℚ)]] = none :=
  ⟨rfl, (pure_selection_single_track_out_of_bounds [[0]] 0 rfl).1,
    (pure_selection_single_track_out_of_bounds [[0]] 0 rfl).2⟩

end PureTracker
